import Mathlib

/-
Verification of the Tacticus AI-coach agent loop
(`tacticus-ui/src/lib/ai/agent.ts`): the streaming protocol client, the
tool-call fragment accumulator, the bounded tool-execution loop, and the
tool dispatch registry.  The TypeScript source is embedded shallowly:

* JavaScript strings are Lean `String`; fields whose JS use is only a
  truthiness test plus the value (`tc.id`, `tc.function?.name`,
  `tc.function?.arguments`, `choice.delta?.content`) are modeled as
  `String` with the empty string standing for absent/undefined, which is
  exactly the JS truthiness semantics at those sites.
* `JSON.parse` and the Tauri `invoke` IPC are external library calls; they
  are modeled as oracles in an `Env` record (`jparse`, `backend`), with
  `Except.error` standing for a thrown exception / rejected promise.
* The stream is modeled at the record (line) level: each `data:` line of
  the event stream is a `LineData` value describing the outcome of the
  per-line case analysis the source performs (not a data line, the
  `[DONE]` sentinel, malformed JSON, no `choices[0]`, or a delta payload).
* Callback invocations (`onChunk`, `onToolCall`, `onToolResult`) are
  recorded in ledgers inside `ExchangeState`; `onComplete`/`onError` are
  the terminal `Outcome`.  The optional `onToolCall` callback matters for
  control flow: in the source, `callbacks.onToolCall?.(tc.name,
  JSON.parse(tc.arguments || '\x7b\x7d'))` short-circuits argument
  evaluation when the callback is absent, so `JSON.parse` runs at that
  unprotected site only when the callback is registered.  That is modeled
  by `Env.hasOnToolCall`.
-/

namespace Tacticus

/-- Roles a caller-supplied chat message may carry (`ChatMessage.role`). -/
inductive ChatRole
  | user
  | assistant
deriving DecidableEq

/-- Roles of outgoing OpenRouter messages (`OpenRouterMessage.role`). -/
inductive Role
  | system
  | user
  | assistant
  | tool
deriving DecidableEq

/-- One incremental tool-call fragment from `choices[0].delta.tool_calls[]`:
optional id, optional `function.name`, optional `function.arguments`
substring, each with the empty string standing for absent. -/
structure ToolCallFragment where
  id : String
  name : String
  arguments : String
deriving DecidableEq

/-- One entry of the `currentToolCalls` accumulator:
`\x7b id; name; arguments \x7d` with arguments-text-so-far. -/
structure ToolCallAcc where
  id : String
  name : String
  arguments : String
deriving DecidableEq

/-- Outcome of dispatching one tool: the source returns an object whose
`success` field is `true` (with a projected payload) or `false` (with an
error description). -/
inductive ToolResult
  | ok (payload : String)
  | failure (error : String)
deriving DecidableEq

/-- Content of an outgoing message: plain text, or the `JSON.stringify`
serialization of a tool result (kept symbolic; no claim inspects the
serialized characters). -/
inductive MsgContent
  | text (s : String)
  | json (r : ToolResult)
deriving DecidableEq

/-- An outgoing `OpenRouterMessage`.  `tool_calls` is non-empty only on
assistant messages; `tool_call_id` is the empty string except on
tool-role messages. -/
structure OutMessage where
  role : Role
  content : MsgContent
  tool_calls : List ToolCallAcc
  tool_call_id : String
deriving DecidableEq

/-- Outcome of the per-line case analysis of the stream reader
(lines 394-426 of the source): a line that does not start with
`data: `, the `[DONE]` sentinel, a record whose JSON fails to parse, a
parsed record without `choices[0]`, or a delta carrying an optional text
fragment and an optional tool-call fragment array. -/
inductive LineData
  | notData
  | doneMark
  | malformed
  | noChoice
  | delta (content : String) (toolCalls : Option (List ToolCallFragment))
deriving DecidableEq

/-- One model round as seen by the loop body: the fetch yields a non-2xx
response, a response without a body, a stream whose read fails after
delivering some complete lines, or a well-formed stream of lines. -/
inductive RoundInput
  | httpError (status : Nat) (body : String)
  | noBody
  | readError (lines : List LineData) (msg : String)
  | stream (lines : List LineData)
deriving DecidableEq

/-- Terminal outcome of one exchange: `onComplete` with the final text, or
`onError` with the error message. -/
inductive Outcome
  | complete (text : String)
  | error (msg : String)
deriving DecidableEq

/-- External environment of the loop: the fixed system prompt, the
`JSON.parse` oracle (`Except.error` = throw), the Tauri `invoke` oracle
(`Except.error` = rejected promise), and whether the optional `onToolCall`
callback was supplied by the caller. -/
structure Env where
  systemPrompt : String
  jparse : String → Except String String
  backend : String → String → Except String String
  hasOnToolCall : Bool

/-- Per-round state of the stream reader: `fullText`, the
`currentToolCalls` accumulator, the `hasToolCalls` flag, and the text
chunks emitted through `onChunk` during this round, in order. -/
structure RoundState where
  fullText : String
  calls : List ToolCallAcc
  hasToolCalls : Bool
  chunks : List String
deriving DecidableEq

/-- Cross-round observable state of one exchange: the outgoing
`openRouterMessages` transcript, every chunk delivered via `onChunk` in
delivery order, the `onToolCall` and `onToolResult` notification ledgers,
and the number of model invocations (HTTP fetches) performed. -/
structure ExchangeState where
  messages : List OutMessage
  chunksAll : List String
  toolCallEvents : List (String × String)
  toolResultEvents : List (String × ToolResult)
  fetchCount : Nat
deriving DecidableEq

/-- Concatenation of a list of strings in order (delivery-order join). -/
def concatList : List String → String
  | [] => ""
  | a :: rest => a ++ concatList rest

/-- Index of the first element satisfying the predicate
(JS `Array.prototype.findIndex`, with `none` for the -1 sentinel). -/
def findIndexBy (p : ToolCallAcc → Bool) : List ToolCallAcc → Option Nat
  | [] => none
  | c :: cs => if p c then some 0 else (findIndexBy p cs).map (· + 1)

/-- Replace the element at the given index by applying `f`
(out-of-range indices leave the list unchanged). -/
def updateAt : List ToolCallAcc → Nat → (ToolCallAcc → ToolCallAcc) → List ToolCallAcc
  | [], _, _ => []
  | c :: cs, 0, f => f c :: cs
  | c :: cs, n + 1, f => c :: updateAt cs n f

/-- In-place mutation of one accumulator entry by a fragment
(lines 418-419): a non-empty name fragment overwrites `name`; a non-empty
arguments fragment is appended verbatim to `arguments`. -/
def mergeInto (c : ToolCallAcc) (tc : ToolCallFragment) : ToolCallAcc :=
  { id := c.id,
    name := if tc.name ≠ "" then tc.name else c.name,
    arguments := if tc.arguments ≠ "" then c.arguments ++ tc.arguments else c.arguments }

/-- One fragment merged into the `currentToolCalls` accumulator
(lines 413-421).  The source computes
`idx = tc.id ? findIndex(c => c.id === tc.id) : length - 1` with -1 as
the "no entry" sentinel, then pushes a fresh entry when the id is new and
otherwise mutates entry `idx` when `idx >= 0`; the sentinel becomes an
`Option` / empty-list case split here. -/
def applyFragment (calls : List ToolCallAcc) (tc : ToolCallFragment) : List ToolCallAcc :=
  if tc.id ≠ "" then
    match findIndexBy (fun c => c.id == tc.id) calls with
    | none => calls ++ [{ id := tc.id, name := tc.name, arguments := tc.arguments }]
    | some i => updateAt calls i (fun c => mergeInto c tc)
  else
    match calls with
    | [] => calls
    | _ :: _ => updateAt calls (calls.length - 1) (fun c => mergeInto c tc)

/-- Processing of a single stream line (lines 394-426): non-data lines,
the `[DONE]` sentinel, malformed records and records without `choices[0]`
are skipped; a delta first emits its text fragment through `onChunk`
(appending it to `fullText`), then, if a `tool_calls` array is present
(even an empty one), sets `hasToolCalls` and folds the fragments into the
accumulator. -/
def processLine (st : RoundState) : LineData → RoundState
  | .notData => st
  | .doneMark => st
  | .malformed => st
  | .noChoice => st
  | .delta content toolCalls =>
    let st1 := if content ≠ "" then
        { st with fullText := st.fullText ++ content, chunks := st.chunks ++ [content] }
      else st
    match toolCalls with
    | none => st1
    | some tcs => { st1 with hasToolCalls := true, calls := tcs.foldl applyFragment st1.calls }

/-- Stream processing of a round starting from a given state. -/
def processRoundFrom (st : RoundState) (lines : List LineData) : RoundState :=
  lines.foldl processLine st

/-- Round-initial reader state (`fullText = ''`, `currentToolCalls = []`,
`hasToolCalls = false`, lines 381-384). -/
def initialRoundState : RoundState :=
  { fullText := "", calls := [], hasToolCalls := false, chunks := [] }

/-- Stream processing of one whole round. -/
def processRound (lines : List LineData) : RoundState :=
  processRoundFrom initialRoundState lines

/-- The seven registered tool names (the `TOOL_DEFINITIONS` registry). -/
def knownToolNames : List String :=
  ["getRecentGames", "getPlayerStats", "getWeaknessHistory", "searchGamesByOpening",
   "getGamesWithMistakes", "getTrainingProgress", "getImprovementTrend"]

/-- The `executeTool` dispatch (lines 202-318).  Each known tool awaits the
external Tauri `invoke` command and projects its typed payload into a
compact `success:true` object; `invoke` together with that per-tool
projection is the `backend` oracle, a rejected promise being
`Except.error` (which propagates out of `executeTool`).  The `default`
branch returns `success:false` with an `Unknown tool` description rather
than throwing. -/
def executeTool (backend : String → String → Except String String)
    (name : String) (args : String) : Except String ToolResult :=
  match name with
  | "getRecentGames" => (backend "get_recent_games" args).map ToolResult.ok
  | "getPlayerStats" => (backend "get_player_stats" args).map ToolResult.ok
  | "getWeaknessHistory" => (backend "get_weakness_history" args).map ToolResult.ok
  | "searchGamesByOpening" => (backend "search_games_by_opening" args).map ToolResult.ok
  | "getGamesWithMistakes" => (backend "get_games_with_mistakes" args).map ToolResult.ok
  | "getTrainingProgress" => (backend "get_training_progress" args).map ToolResult.ok
  | "getImprovementTrend" => (backend "get_improvement_trend" args).map ToolResult.ok
  | _ => .ok (.failure ("Unknown tool: " ++ name))

/-- Argument text handed to `JSON.parse`: the source writes
`tc.arguments || '\x7b\x7d'`, substituting the empty-object text for an
empty accumulation. -/
def argTextOf (a : String) : String := if a = "" then "\x7b\x7d" else a

/-- A tool-role transcript message (lines 453-457 / 459-463):
`role: 'tool'`, `tool_call_id` of the originating call, content the
serialized result. -/
def toolMessage (id : String) (r : ToolResult) : OutMessage :=
  { role := .tool, content := .json r, tool_calls := [], tool_call_id := id }

/-- The assistant transcript message pushed before tool execution
(lines 436-444): the round text plus the completed tool calls. -/
def assistantMessage (text : String) (calls : List ToolCallAcc) : OutMessage :=
  { role := .assistant, content := .text text, tool_calls := calls, tool_call_id := "" }

/-- Execution of one completed tool call (lines 446-465).  First the
optional `onToolCall` notification: its argument
`JSON.parse(tc.arguments || '\x7b\x7d')` is evaluated only when the
callback is registered, and a parse failure there is raised OUTSIDE the
try/catch below, escaping as the second component.  Then the guarded
block: parse the arguments again, dispatch through `executeTool`, notify
`onToolResult`, and push the tool message; any exception inside it is
caught and pushed as a `success:false` tool message instead. -/
def runToolCall (env : Env) (st : ExchangeState) (tc : ToolCallAcc) :
    ExchangeState × Option String :=
  let notified : Except String ExchangeState :=
    if env.hasOnToolCall then
      match env.jparse (argTextOf tc.arguments) with
      | .error e => .error e
      | .ok v => .ok { st with toolCallEvents := st.toolCallEvents ++ [(tc.name, v)] }
    else .ok st
  match notified with
  | .error e => (st, some e)
  | .ok st1 =>
    match (env.jparse (argTextOf tc.arguments)).bind
        (fun v => executeTool env.backend tc.name v) with
    | .ok result =>
      ({ st1 with
          toolResultEvents := st1.toolResultEvents ++ [(tc.name, result)],
          messages := st1.messages ++ [toolMessage tc.id result] }, none)
    | .error e =>
      ({ st1 with messages := st1.messages ++ [toolMessage tc.id (.failure e)] }, none)

/-- Sequential execution of the accumulated calls in first-seen order
(the `for` loop at line 446); an exception escaping `runToolCall` aborts
the remainder and is returned alongside the state reached so far. -/
def toolPhase (env : Env) (st : ExchangeState) : List ToolCallAcc → ExchangeState × Option String
  | [] => (st, none)
  | tc :: rest =>
    match runToolCall env st tc with
    | (st1, some e) => (st1, some e)
    | (st1, none) => toolPhase env st1 rest

/-- The result the guarded block of `runToolCall` produces for one call
when no exception escapes: parse the arguments, dispatch, and turn a
caught exception into a `success:false` result. -/
def execResultOf (env : Env) (tc : ToolCallAcc) : ToolResult :=
  match (env.jparse (argTextOf tc.arguments)).bind
      (fun v => executeTool env.backend tc.name v) with
  | .ok r => r
  | .error e => .failure e

/-- The exception (if any) that escapes `runToolCall` for one call: only
the unprotected `JSON.parse` at the `onToolCall` notification can throw
past the catch, and only when the callback is registered. -/
def callAborts (env : Env) (tc : ToolCallAcc) : Option String :=
  if env.hasOnToolCall then
    match env.jparse (argTextOf tc.arguments) with
    | .error e => some e
    | .ok _ => none
  else none

/-- The fixed round budget (`let maxIterations = 5`, line 350). -/
def maxIterations : Nat := 5

/-- The bounded agent loop (lines 352-471).  `fuel` is the remaining
`maxIterations` counter, `k` indexes the round inputs, and `st` threads
the observable exchange state.  Exiting the while loop with the budget
exhausted invokes `onComplete('')` (line 468); a non-2xx response throws
`API error (status): body` (lines 372-375); a missing body throws
`No response body` (line 378); both, like a read failure or an exception
escaping the tool phase, reach the outer catch and become `onError`.  A
round with no tool calls completes with the round text (lines 430-433);
otherwise the assistant message and the tool results are appended and the
loop recurses. -/
def roundLoop (env : Env) (inputs : Nat → RoundInput) :
    Nat → Nat → ExchangeState → Outcome × ExchangeState
  | 0, _, st => (.complete "", st)
  | fuel + 1, k, st =>
    let st0 := { st with fetchCount := st.fetchCount + 1 }
    match inputs k with
    | .httpError status body =>
      (.error ("API error (" ++ toString status ++ "): " ++ body), st0)
    | .noBody => (.error "No response body", st0)
    | .readError lines msg =>
      let rs := processRound lines
      (.error msg, { st0 with chunksAll := st0.chunksAll ++ rs.chunks })
    | .stream lines =>
      let rs := processRound lines
      let st1 := { st0 with chunksAll := st0.chunksAll ++ rs.chunks }
      if rs.hasToolCalls = false ∨ rs.calls = [] then
        (.complete rs.fullText, st1)
      else
        let st2 := { st1 with messages := st1.messages ++ [assistantMessage rs.fullText rs.calls] }
        let tp := toolPhase env st2 rs.calls
        match tp.2 with
        | some e => (.error e, tp.1)
        | none => roundLoop env inputs fuel (k + 1) tp.1

/-- Translation of a caller-supplied chat message into an outgoing message
(line 346). -/
def chatMessageOut (m : ChatRole × String) : OutMessage :=
  { role := match m.1 with | .user => .user | .assistant => .assistant,
    content := .text m.2, tool_calls := [], tool_call_id := "" }

/-- The whole `streamCoachResponse` exchange (lines 338-472): build the
initial transcript (system prompt plus prior turns, lines 344-347) and
run the bounded loop with the full budget. -/
def streamCoachResponse (env : Env) (history : List (ChatRole × String))
    (inputs : Nat → RoundInput) : Outcome × ExchangeState :=
  roundLoop env inputs maxIterations 0
    { messages :=
        { role := .system, content := .text env.systemPrompt,
          tool_calls := [], tool_call_id := "" } :: history.map chatMessageOut,
      chunksAll := [], toolCallEvents := [], toolResultEvents := [], fetchCount := 0 }

/-- The non-streaming wrapper `generateCoachResponse` (lines 475-488): it
supplies its own callbacks — `onChunk` appends to a local `fullText`,
`onComplete` ignores its argument and resolves that local text, `onError`
rejects — and registers no `onToolCall`/`onToolResult` callback. -/
def generateCoachResponse (env : Env) (history : List (ChatRole × String))
    (inputs : Nat → RoundInput) : Except String String :=
  match streamCoachResponse { env with hasOnToolCall := false } history inputs with
  | (.complete _, st) => .ok (concatList st.chunksAll)
  | (.error e, _) => .error e

/-- A concrete environment for evaluating the loop with the `onToolCall`
callback registered (as the chat view does): `JSON.parse` succeeds only on
the empty-object text, the backend always answers. -/
def envObserver : Env :=
  { systemPrompt := "p",
    jparse := fun s => if s = "\x7b\x7d" then .ok "emptyObj" else .error ("SyntaxError: " ++ s),
    backend := fun _ _ => .ok "payload",
    hasOnToolCall := true }

/-- A concrete environment with no `onToolCall` callback registered (as
`generateCoachResponse` runs): parsing always succeeds, the backend always
answers. -/
def envPlain : Env :=
  { systemPrompt := "p",
    jparse := fun s => .ok s,
    backend := fun _ _ => .ok "payload",
    hasOnToolCall := false }

/-- A round whose stream delivers two completed tool calls, the first with
arguments text that does not parse as JSON, the second a valid sibling. -/
def badArgsLines : List LineData :=
  [.delta "" (some
    [{ id := "call_1", name := "getRecentGames", arguments := "not json" },
     { id := "call_2", name := "getPlayerStats", arguments := "" }])]

/-- Every round delivers the two-call stream above. -/
def badArgsInputs : Nat → RoundInput := fun _ => .stream badArgsLines

/-- A round whose stream delivers the text `Hi` and one valid tool call,
so the loop keeps requesting further rounds. -/
def toolLoopLines : List LineData :=
  [.delta "Hi" (some [{ id := "c1", name := "getPlayerStats", arguments := "" }])]

/-- Every round delivers the tool-calling stream above. -/
def toolLoopInputs : Nat → RoundInput := fun _ => .stream toolLoopLines

/-- The environment of `envObserver` with no `onToolCall` callback
registered, isolating the effect of the optional callback. -/
def envNoObs : Env := { envObserver with hasOnToolCall := false }

/-- An exchange state with nothing accumulated yet. -/
def emptyExchangeState : ExchangeState :=
  { messages := [], chunksAll := [], toolCallEvents := [],
    toolResultEvents := [], fetchCount := 0 }

/-- Every round answers with HTTP status 500 and body `boom`. -/
def httpErrInputs : Nat → RoundInput := fun _ => .httpError 500 "boom"

/-- A round input on which the loop body proceeds to the next model round:
a well-formed stream that accumulates at least one tool call and whose
tool-execution phase finishes without an escaped exception. -/
def continuesAt (env : Env) (ri : RoundInput) : Prop :=
  ∃ lines, ri = RoundInput.stream lines ∧
    (processRound lines).hasToolCalls = true ∧
    (processRound lines).calls ≠ [] ∧
    ∀ tc ∈ (processRound lines).calls, callAborts env tc = none

end Tacticus

namespace Tacticus

/-- If no element satisfies the predicate, `findIndexBy` returns `none`. -/
theorem findIndexBy_none_of (p : ToolCallAcc → Bool) :
    ∀ l : List ToolCallAcc, (∀ c ∈ l, p c = false) → findIndexBy p l = none
  | [], _ => rfl
  | c :: cs, h => by
    have hc : p c = false := h c (List.mem_cons_self c cs)
    have ih := findIndexBy_none_of p cs (fun x hx => h x (List.mem_cons_of_mem c hx))
    simp [findIndexBy, hc, ih]

/-- Conversely, a `none` answer means no element satisfies the predicate. -/
theorem of_findIndexBy_none (p : ToolCallAcc → Bool) :
    ∀ l : List ToolCallAcc, findIndexBy p l = none → ∀ c ∈ l, p c = false
  | [], _, c, hc => absurd hc (List.not_mem_nil c)
  | c :: cs, h, x, hx => by
    by_cases hc : p c = true
    · simp [findIndexBy, hc] at h
    · rw [List.mem_cons] at hx
      rcases hx with rfl | hx
      · exact Bool.eq_false_iff.mpr hc
      · have h' : findIndexBy p cs = none := by
          by_cases hpc : p c <;> simp [findIndexBy, hpc] at h ⊢
          · exact h
        exact of_findIndexBy_none p cs h' x hx

/-- When nothing in the prefix matches and the final element does, the
first matching index is the length of the prefix. -/
theorem findIndexBy_append_singleton (p : ToolCallAcc → Bool) :
    ∀ (init : List ToolCallAcc) (last : ToolCallAcc),
      (∀ c ∈ init, p c = false) → p last = true →
      findIndexBy p (init ++ [last]) = some init.length
  | [], last, _, hl => by simp [findIndexBy, hl]
  | c :: cs, last, h, hl => by
    have hc : p c = false := h c (List.mem_cons_self c cs)
    have ih := findIndexBy_append_singleton p cs last
      (fun x hx => h x (List.mem_cons_of_mem c hx)) hl
    simp [findIndexBy, hc, ih]

/-- Updating at the index of the final element rewrites exactly that
element. -/
theorem updateAt_append_singleton (f : ToolCallAcc → ToolCallAcc) :
    ∀ (init : List ToolCallAcc) (last : ToolCallAcc),
      updateAt (init ++ [last]) init.length f = init ++ [f last]
  | [], last => rfl
  | c :: cs, last => by
    simp [updateAt, updateAt_append_singleton f cs last]

/-- Updating an entry with an id-preserving function leaves the id column
unchanged. -/
theorem updateAt_map_id (f : ToolCallAcc → ToolCallAcc) (hf : ∀ c, (f c).id = c.id) :
    ∀ (calls : List ToolCallAcc) (n : Nat),
      (updateAt calls n f).map (fun c => c.id) = calls.map (fun c => c.id)
  | [], _ => rfl
  | c :: cs, 0 => by simp [updateAt, hf]
  | c :: cs, n + 1 => by simp [updateAt, updateAt_map_id f hf cs n]

/-- The fragment merge never changes an entry's identifier. -/
theorem mergeInto_id (c : ToolCallAcc) (tc : ToolCallFragment) :
    (mergeInto c tc).id = c.id := rfl

/-- The fragment merge in closed form: the name is overwritten by a
non-empty name fragment, the arguments fragment is appended verbatim. -/
theorem mergeInto_eq (c : ToolCallAcc) (tc : ToolCallFragment) :
    mergeInto c tc =
      { id := c.id,
        name := if tc.name = "" then c.name else tc.name,
        arguments := c.arguments ++ tc.arguments } := by
  unfold mergeInto
  by_cases hn : tc.name = "" <;> by_cases ha : tc.arguments = "" <;>
    simp [hn, ha, String.append_empty]

end Tacticus

namespace Tacticus

/-- Merging a fragment preserves distinctness of the accumulated
identifiers: a fresh id is appended, a matching fragment only mutates in
place. -/
theorem applyFragment_ids_nodup (calls : List ToolCallAcc) (tc : ToolCallFragment)
    (h : (calls.map (fun c => c.id)).Nodup) :
    ((applyFragment calls tc).map (fun c => c.id)).Nodup := by
  unfold applyFragment
  by_cases hid : tc.id = ""
  · simp only [hid, ne_eq, not_true_eq_false, if_false]
    match calls with
    | [] => exact h
    | c :: cs =>
      rw [updateAt_map_id (fun x => mergeInto x tc) (fun x => mergeInto_id x tc)]
      exact h
  · simp only [ne_eq, hid, not_false_eq_true, if_true]
    cases hfind : findIndexBy (fun c => c.id == tc.id) calls with
    | none =>
      have hfresh : ∀ c ∈ calls, c.id ≠ tc.id := by
        intro c hc
        have := of_findIndexBy_none _ calls hfind c hc
        exact fun he => by simp [he] at this
      have hnotmem : tc.id ∉ calls.map (fun c => c.id) := by
        intro hmem
        rcases List.mem_map.mp hmem with ⟨c, hc, hcid⟩
        exact hfresh c hc hcid
      simp only [List.map_append, List.map_cons, List.map_nil]
      rw [List.nodup_append]
      refine ⟨h, List.nodup_singleton _, ?_⟩
      intro x hx hx'
      simp only [List.mem_singleton] at hx'
      exact hnotmem (hx' ▸ hx)
    | some i =>
      rw [updateAt_map_id (fun x => mergeInto x tc) (fun x => mergeInto_id x tc)]
      exact h

/-- Folding a batch of fragments preserves distinctness of identifiers. -/
theorem foldl_applyFragment_ids_nodup (tcs : List ToolCallFragment) :
    ∀ calls : List ToolCallAcc, (calls.map (fun c => c.id)).Nodup →
      ((tcs.foldl applyFragment calls).map (fun c => c.id)).Nodup := by
  induction tcs with
  | nil => intro calls h; exact h
  | cons tc rest ih =>
    intro calls h
    exact ih (applyFragment calls tc) (applyFragment_ids_nodup calls tc h)

/-- Line processing preserves distinctness of accumulated identifiers. -/
theorem processLine_ids_nodup (st : RoundState) (l : LineData)
    (h : (st.calls.map (fun c => c.id)).Nodup) :
    ((processLine st l).calls.map (fun c => c.id)).Nodup := by
  cases l with
  | notData => exact h
  | doneMark => exact h
  | malformed => exact h
  | noChoice => exact h
  | delta content toolCalls =>
    cases toolCalls with
    | none => by_cases hc : content = "" <;> simpa [processLine, hc] using h
    | some tcs =>
      by_cases hc : content = "" <;> simp [processLine, hc] <;>
        exact foldl_applyFragment_ids_nodup tcs st.calls h

/-- Every state reachable by stream processing has pairwise-distinct
accumulated call identifiers. -/
theorem processRoundFrom_ids_nodup (lines : List LineData) :
    ∀ st : RoundState, (st.calls.map (fun c => c.id)).Nodup →
      ((processRoundFrom st lines).calls.map (fun c => c.id)).Nodup := by
  induction lines with
  | nil => intro st h; exact h
  | cons l rest ih =>
    intro st h
    exact ih (processLine st l) (processLine_ids_nodup st l h)

/-- The identifiers accumulated during one round are pairwise distinct. -/
theorem processRound_ids_nodup (lines : List LineData) :
    ((processRound lines).calls.map (fun c => c.id)).Nodup :=
  processRoundFrom_ids_nodup lines initialRoundState List.nodup_nil

/-- Delivering further argument fragments under an identifier already
present as the only entry appends each fragment in order. -/
theorem foldl_applyFragment_args (i : String) (hi : i ≠ "") :
    ∀ (rest : List String) (n acc : String),
      List.foldl applyFragment [{ id := i, name := n, arguments := acc }]
          (rest.map (fun a => { id := i, name := "", arguments := a })) =
        [{ id := i, name := n, arguments := acc ++ concatList rest }]
  | [], n, acc => by simp [concatList, String.append_empty]
  | a :: rest, n, acc => by
    have hstep : applyFragment [{ id := i, name := n, arguments := acc }]
        { id := i, name := "", arguments := a } =
        [{ id := i, name := n, arguments := acc ++ a }] := by
      simp [applyFragment, findIndexBy, updateAt, mergeInto_eq, hi]
    rw [List.map_cons, List.foldl_cons, hstep,
      foldl_applyFragment_args i hi rest n (acc ++ a)]
    simp [concatList, String.append_assoc]

end Tacticus

namespace Tacticus

/-- C3 counterexample: delivering a creating fragment whose name fragment
is `get` and then an identifier-less fragment whose name fragment is
`Stats` leaves the entry named `Stats`, not the claimed concatenation
`getStats` — the source overwrites the name (line 418,
`currentToolCalls[idx].name = tc.function.name`) instead of appending to
name-so-far as the claim states. -/
theorem C3_counterexample :
    (List.foldl applyFragment []
      [{ id := "a", name := "get", arguments := "" },
       { id := "", name := "Stats", arguments := "" }]).map (fun c => c.name) =
      ["Stats"] ∧ ("Stats" : String) ≠ "get" ++ "Stats" := by
  constructor
  · rfl
  · decide

/-- C3 (amended): a fragment carrying an identifier not yet present
creates a new entry at the end (first-appearance order), initialized with
the fragment's name and arguments; a fragment with no identifier, or with
an identifier matching the last-created entry, is merged into that entry
by OVERWRITING its name with a non-empty name fragment (not appending)
and appending its arguments fragment verbatim to arguments-text-so-far,
never re-parsed until round end. -/
theorem C3_merge_rule (tc : ToolCallFragment) :
    (∀ calls : List ToolCallAcc, tc.id ≠ "" → (∀ c ∈ calls, c.id ≠ tc.id) →
        applyFragment calls tc =
          calls ++ [{ id := tc.id, name := tc.name, arguments := tc.arguments }]) ∧
    (∀ (init : List ToolCallAcc) (last : ToolCallAcc),
        (tc.id = "" ∨ (tc.id = last.id ∧ ∀ c ∈ init, c.id ≠ tc.id)) →
        applyFragment (init ++ [last]) tc =
          init ++ [{ id := last.id,
                     name := if tc.name = "" then last.name else tc.name,
                     arguments := last.arguments ++ tc.arguments }]) := by
  constructor
  · intro calls hid hfresh
    have hfind : findIndexBy (fun c => c.id == tc.id) calls = none :=
      findIndexBy_none_of _ calls
        (fun c hc => beq_eq_false_iff_ne.mpr (hfresh c hc))
    simp [applyFragment, hid, hfind]
  · intro init last hcase
    by_cases hid : tc.id = ""
    · have hred : applyFragment (init ++ [last]) tc =
          updateAt (init ++ [last]) ((init ++ [last]).length - 1)
            (fun c => mergeInto c tc) := by
        cases init with
        | nil => simp [applyFragment, hid]
        | cons c cs => simp [applyFragment, hid]
      have hlen : (init ++ [last]).length - 1 = init.length := by simp
      rw [hred, hlen, updateAt_append_singleton]
      rw [mergeInto_eq]
    · rcases hcase with h0 | ⟨hlast, hfresh⟩
      · exact absurd h0 hid
      · have hfind : findIndexBy (fun c => c.id == tc.id) (init ++ [last]) =
            some init.length :=
          findIndexBy_append_singleton _ init last
            (fun c hc => beq_eq_false_iff_ne.mpr (hfresh c hc))
            (by simp [hlast])
        have hid' : tc.id ≠ "" := hid
        unfold applyFragment
        rw [if_pos hid', hfind]
        show updateAt (init ++ [last]) init.length (fun c => mergeInto c tc) = _
        rw [updateAt_append_singleton]
        show init ++ [mergeInto last tc] = _
        rw [mergeInto_eq]

/-- Witness for C3_merge_rule: a creating fragment under the fresh id `a`
pushes a fresh entry, and an identifier-less follow-up fragment overwrites
the name and appends the arguments of that entry. -/
theorem C3_merge_rule_witness :
    applyFragment [] { id := "a", name := "f", arguments := "x" } =
      [{ id := "a", name := "f", arguments := "x" }] ∧
    applyFragment [{ id := "a", name := "f", arguments := "x" }]
        { id := "", name := "g", arguments := "y" } =
      [{ id := "a", name := "g", arguments := "xy" }] := by
  constructor
  · have h := (C3_merge_rule { id := "a", name := "f", arguments := "x" }).1 []
      (by decide) (fun c hc => absurd hc (List.not_mem_nil c))
    exact h.trans (by decide)
  · have h := (C3_merge_rule { id := "", name := "g", arguments := "y" }).2 []
      { id := "a", name := "f", arguments := "x" } (Or.inl rfl)
    exact h.trans (by decide)

/-- C4: for every ToolCall identifier and every way of splitting its
arguments text into fragments, delivering the fragments in order to the
accumulator leaves exactly the state produced by delivering the full
arguments text in a single fragment — the accumulated arguments string is
the verbatim concatenation either way, so the one parse at round end is
applied to identical text and yields the same JSON object
(fragmentation-invariance). -/
theorem C4_fragmentation_invariance (i : String) (frags : List String)
    (hi : i ≠ "") (hne : frags ≠ []) :
    List.foldl applyFragment []
        (frags.map (fun a => { id := i, name := "", arguments := a })) =
      applyFragment [] { id := i, name := "", arguments := concatList frags } ∧
    applyFragment [] { id := i, name := "", arguments := concatList frags } =
      [{ id := i, name := "", arguments := concatList frags }] := by
  have hsingle : ∀ args : String,
      applyFragment [] { id := i, name := "", arguments := args } =
        [{ id := i, name := "", arguments := args }] := by
    intro args
    simp [applyFragment, hi, findIndexBy]
  refine ⟨?_, hsingle _⟩
  cases frags with
  | nil => exact absurd rfl hne
  | cons a rest =>
    rw [List.map_cons, List.foldl_cons, hsingle a,
      foldl_applyFragment_args i hi rest "" a, hsingle]
    simp [concatList]

/-- Witness for C4_fragmentation_invariance: splitting `abcd` into the
fragments `ab` and `cd` accumulates the same single entry as one
fragment would. -/
theorem C4_fragmentation_invariance_witness :
    List.foldl applyFragment []
        (["ab", "cd"].map (fun a => { id := "x", name := "", arguments := a })) =
      [{ id := "x", name := "", arguments := "abcd" }] := by
  have h := C4_fragmentation_invariance "x" ["ab", "cd"] (by decide) (by decide)
  exact (h.1.trans h.2).trans (by decide)

/-- C7: a stream record whose JSON payload fails to parse is skipped by
itself — processing any stream with the malformed record inserted yields
exactly the state (emitted chunks, text, accumulated tool-call fragments)
of processing the stream without it, all subsequent records included, and
the (total) processing function lets no exception escape. -/
theorem C7_malformed_record_skipped (pre suf : List LineData) :
    processRound (pre ++ LineData.malformed :: suf) = processRound (pre ++ suf) := by
  simp [processRound, processRoundFrom, List.foldl_append, List.foldl_cons, processLine]

/-- C9: a tool-call fragment carrying no identifier while the accumulator
is still empty is silently discarded — no entry is created and the
accumulator is unchanged (the source's `idx >= 0` guard makes the
`length - 1 = -1` sentinel fall through both branches). -/
theorem C9_headless_fragment_dropped (name arguments : String) :
    applyFragment [] { id := "", name := name, arguments := arguments } = [] := rfl

end Tacticus

namespace Tacticus

/-- Characterization of one tool-call execution: the escaped exception is
exactly `callAborts` (only the unprotected parse at the notification site
can escape); when nothing escapes, exactly one tool message with that
call's id and `execResultOf` is appended; the fetch counter is untouched. -/
theorem runToolCall_char (env : Env) (st : ExchangeState) (tc : ToolCallAcc) :
    (runToolCall env st tc).2 = callAborts env tc ∧
    (callAborts env tc = none →
      (runToolCall env st tc).1.messages =
        st.messages ++ [toolMessage tc.id (execResultOf env tc)]) ∧
    (runToolCall env st tc).1.fetchCount = st.fetchCount := by
  by_cases ho : env.hasOnToolCall <;>
    cases hj : env.jparse (argTextOf tc.arguments) with
  | ok v =>
    cases hx : executeTool env.backend tc.name v with
    | ok r =>
      refine ⟨?_, ?_, ?_⟩ <;>
        simp [runToolCall, callAborts, execResultOf, ho, hj, hx, Except.bind]
    | error e =>
      refine ⟨?_, ?_, ?_⟩ <;>
        simp [runToolCall, callAborts, execResultOf, ho, hj, hx, Except.bind]
  | error e =>
    refine ⟨?_, ?_, ?_⟩ <;>
      simp [runToolCall, callAborts, execResultOf, ho, hj, Except.bind]

/-- When no call in the batch aborts, the tool phase finishes without an
escaped exception and appends exactly one tool message per call, in list
order. -/
theorem toolPhase_char (env : Env) :
    ∀ (calls : List ToolCallAcc) (st : ExchangeState),
      (∀ tc ∈ calls, callAborts env tc = none) →
      (toolPhase env st calls).2 = none ∧
      (toolPhase env st calls).1.messages =
        st.messages ++ calls.map (fun tc => toolMessage tc.id (execResultOf env tc)) := by
  intro calls
  induction calls with
  | nil => intro st _; simp [toolPhase]
  | cons tc rest ih =>
    intro st h
    have habort : callAborts env tc = none := h tc (List.mem_cons_self tc rest)
    have hchar := runToolCall_char env st tc
    cases hrt : runToolCall env st tc with
    | mk st1 o =>
      rw [hrt] at hchar
      have ho : o = none := hchar.1.trans habort
      subst ho
      have hmsg : st1.messages = st.messages ++ [toolMessage tc.id (execResultOf env tc)] :=
        hchar.2.1 habort
      have hrest := ih st1 (fun x hx => h x (List.mem_cons_of_mem tc hx))
      constructor
      · simp [toolPhase, hrt, hrest.1]
      · simp [toolPhase, hrt, hrest.2, hmsg]

/-- Restatement of the first component of `toolPhase_char` as a rewrite
rule quantified over the starting state. -/
theorem toolPhase_snd_none (env : Env) (calls : List ToolCallAcc)
    (h : ∀ tc ∈ calls, callAborts env tc = none) :
    ∀ st : ExchangeState, (toolPhase env st calls).2 = none :=
  fun st => (toolPhase_char env calls st h).1

/-- The tool phase never touches the fetch counter, aborted or not. -/
theorem toolPhase_fetchCount (env : Env) :
    ∀ (calls : List ToolCallAcc) (st : ExchangeState),
      (toolPhase env st calls).1.fetchCount = st.fetchCount := by
  intro calls
  induction calls with
  | nil => intro st; simp [toolPhase]
  | cons tc rest ih =>
    intro st
    have hfc := (runToolCall_char env st tc).2.2
    cases hrt : runToolCall env st tc with
    | mk st1 o =>
      rw [hrt] at hfc
      simp only at hfc
      cases o with
      | none => simp [toolPhase, hrt, ih st1, hfc]
      | some e => simp [toolPhase, hrt, hfc]

end Tacticus

namespace Tacticus

/-- The loop performs at most `fuel` further model invocations: the fetch
counter grows by at most the remaining budget, whatever the stream
contents and tool behavior. -/
theorem roundLoop_fetchCount_le (env : Env) (inputs : Nat → RoundInput) :
    ∀ (fuel k : Nat) (st : ExchangeState),
      (roundLoop env inputs fuel k st).2.fetchCount ≤ st.fetchCount + fuel := by
  intro fuel
  induction fuel with
  | zero => intro k st; simp [roundLoop]
  | succ fuel ih =>
    intro k st
    cases hin : inputs k with
    | httpError status body => simp [roundLoop, hin]
    | noBody => simp [roundLoop, hin]
    | readError lines msg => simp [roundLoop, hin]
    | stream lines =>
      simp only [roundLoop, hin]
      split
      · simp
      · split
        · next e heq =>
          simp only []
          rw [toolPhase_fetchCount]
          simp
        · next heq =>
          refine le_trans (ih (k + 1) _) ?_
          rw [toolPhase_fetchCount]
          simp
          omega

/-- When every remaining round continues (tool calls accumulated, tool
phase completes), the loop runs the budget to zero and completes with the
empty string. -/
theorem roundLoop_complete_of_continues (env : Env) (inputs : Nat → RoundInput) :
    ∀ (fuel k : Nat) (st : ExchangeState),
      (∀ j, k ≤ j → j < k + fuel → continuesAt env (inputs j)) →
      (roundLoop env inputs fuel k st).1 = Outcome.complete "" := by
  intro fuel
  induction fuel with
  | zero => intro k st _; simp [roundLoop]
  | succ fuel ih =>
    intro k st h
    obtain ⟨lines, hin, htc, hcne, habort⟩ := h k (le_refl k) (by omega)
    simp only [roundLoop, hin]
    rw [if_neg (by simp [htc, hcne])]
    simp only [toolPhase_snd_none env (processRound lines).calls habort]
    exact ih (k + 1) _ (fun j h1 h2 => h j (by omega) (by omega))

end Tacticus

namespace Tacticus

/-- C1 evaluated at the failing input (the claim is right, the code has a
slip): a round accumulates the calls `call_1` (arguments `not json`) and
`call_2` (valid sibling).  With the `onToolCall` callback registered —
as the chat view registers it — the unprotected
`JSON.parse(tc.arguments || ...)` argument of the notification throws
outside the per-call try, so the exchange ends in `onError`, no tool
message is appended and the sibling is never executed, contradicting the
claim.  Without the callback the parse runs only inside the try and the
claimed soft-fail behavior holds: `call_1` yields a `success:false` tool
message, the sibling executes, and no exception escapes, so the round
reaches the next model invocation. -/
theorem C1_code_behavior :
    (streamCoachResponse envObserver [] badArgsInputs).1 =
      Outcome.error "SyntaxError: not json" ∧
    (streamCoachResponse envObserver [] badArgsInputs).2.toolResultEvents = [] ∧
    (streamCoachResponse envObserver [] badArgsInputs).2.messages =
      [{ role := Role.system, content := MsgContent.text "p",
         tool_calls := [], tool_call_id := "" },
       assistantMessage ""
         [{ id := "call_1", name := "getRecentGames", arguments := "not json" },
          { id := "call_2", name := "getPlayerStats", arguments := "" }]] ∧
    (toolPhase envNoObs emptyExchangeState (processRound badArgsLines).calls).2 = none ∧
    (toolPhase envNoObs emptyExchangeState (processRound badArgsLines).calls).1.messages =
      [toolMessage "call_1" (ToolResult.failure "SyntaxError: not json"),
       toolMessage "call_2" (ToolResult.ok "payload")] := by
  refine ⟨?_, ?_, ?_, ?_, ?_⟩ <;> decide

/-- C2: in every exchange in which the model requests tool calls on each
round until the round budget is exhausted (each round a well-formed
stream accumulating calls whose tool phase completes), the loop exits the
while loop with the budget at zero and invokes `onComplete` exactly once
with the empty string — the text accumulated for the round that never
started — and never invokes `onError` for budget exhaustion. -/
theorem C2_budget_soft_stop (env : Env) (history : List (ChatRole × String))
    (inputs : Nat → RoundInput)
    (h : ∀ k, k < maxIterations → continuesAt env (inputs k)) :
    (streamCoachResponse env history inputs).1 = Outcome.complete "" := by
  have hrun := roundLoop_complete_of_continues env inputs maxIterations 0
    { messages :=
        { role := .system, content := .text env.systemPrompt,
          tool_calls := [], tool_call_id := "" } :: history.map chatMessageOut,
      chunksAll := [], toolCallEvents := [], toolResultEvents := [], fetchCount := 0 }
    (fun j h0 hj => h j (by omega))
  simpa [streamCoachResponse] using hrun

/-- Witness for C2_budget_soft_stop: five identical tool-requesting
rounds with no registered `onToolCall` callback exhaust the budget and
complete with the empty string. -/
theorem C2_budget_soft_stop_witness :
    (streamCoachResponse envPlain [] toolLoopInputs).1 = Outcome.complete "" :=
  C2_budget_soft_stop envPlain [] toolLoopInputs
    (fun k hk => ⟨toolLoopLines, rfl, rfl, by decide, fun tc htc => rfl⟩)

/-- C5 counterexample: a round completed with two accumulated ToolCalls,
yet zero tool-role messages were appended — with the `onToolCall`
callback registered, the unprotected parse of the first call's arguments
aborts the tool phase before any tool message is pushed, so the claimed
"exactly N tool-role messages" fails at N = 2. -/
theorem C5_counterexample :
    (processRound badArgsLines).calls.length = 2 ∧
    (streamCoachResponse envObserver [] badArgsInputs).2.messages.countP
      (fun m => decide (m.role = Role.tool)) = 0 ∧
    (streamCoachResponse envObserver [] badArgsInputs).1 =
      Outcome.error "SyntaxError: not json" := by
  refine ⟨?_, ?_, ?_⟩ <;> decide

/-- C5 (amended): for every round that completes with N accumulated
ToolCalls, provided the tool-execution phase is not aborted by an escaped
exception from the `onToolCall` notification site (in particular whenever
no `onToolCall` callback is registered, or every argument text parses),
exactly N tool-role messages are appended — one per accumulated ToolCall,
carrying that call's identifier as `tool_call_id`, in the order the calls
were first observed — and those identifiers are pairwise distinct. -/
theorem C5_tool_messages (env : Env) (st : ExchangeState) (lines : List LineData)
    (h : ∀ tc ∈ (processRound lines).calls, callAborts env tc = none) :
    (toolPhase env st (processRound lines).calls).2 = none ∧
    (toolPhase env st (processRound lines).calls).1.messages =
      st.messages ++ (processRound lines).calls.map
        (fun tc => toolMessage tc.id (execResultOf env tc)) ∧
    ((processRound lines).calls.map (fun c => c.id)).Nodup :=
  ⟨(toolPhase_char env _ st h).1, (toolPhase_char env _ st h).2,
    processRound_ids_nodup lines⟩

/-- Witness for C5_tool_messages: one accumulated call produces exactly
one tool message carrying its id. -/
theorem C5_tool_messages_witness :
    (toolPhase envPlain emptyExchangeState (processRound toolLoopLines).calls).2 = none ∧
    (toolPhase envPlain emptyExchangeState
        (processRound toolLoopLines).calls).1.messages =
      [toolMessage "c1" (ToolResult.ok "payload")] := by
  have h := C5_tool_messages envPlain emptyExchangeState toolLoopLines (fun tc htc => rfl)
  exact ⟨h.1, h.2.1.trans (by decide)⟩

/-- C6: for every input (any stream contents, any tool behavior) the
remaining-round counter strictly decreases by one per model round — the
loop is structural recursion on it — so the exchange performs at most
`maxIterations` HTTP requests (in particular at most `maxIterations + 1`,
as claimed) and always ends in a terminal outcome, `onComplete` or
`onError`. -/
theorem C6_round_budget_termination (env : Env) (history : List (ChatRole × String))
    (inputs : Nat → RoundInput) :
    (streamCoachResponse env history inputs).2.fetchCount ≤ maxIterations ∧
    (streamCoachResponse env history inputs).2.fetchCount ≤ maxIterations + 1 ∧
    ((∃ s, (streamCoachResponse env history inputs).1 = Outcome.complete s) ∨
     (∃ e, (streamCoachResponse env history inputs).1 = Outcome.error e)) := by
  have hb := roundLoop_fetchCount_le env inputs maxIterations 0
    { messages :=
        { role := .system, content := .text env.systemPrompt,
          tool_calls := [], tool_call_id := "" } :: history.map chatMessageOut,
      chunksAll := [], toolCallEvents := [], toolResultEvents := [], fetchCount := 0 }
  refine ⟨?_, ?_, ?_⟩
  · simpa [streamCoachResponse] using hb
  · have : (streamCoachResponse env history inputs).2.fetchCount ≤ maxIterations := by
      simpa [streamCoachResponse] using hb
    omega
  · cases ho : (streamCoachResponse env history inputs).1 with
    | complete s => exact Or.inl ⟨s, rfl⟩
    | error e => exact Or.inr ⟨e, rfl⟩

/-- C8: a transport failure on a round with budget remaining — non-2xx
status, missing body, or a mid-stream read failure — ends the exchange
via `onError` (for non-2xx, with the message carrying the status and the
body text), and everything produced by the earlier rounds stays intact:
the transcript messages already appended are returned unchanged and no
chunk already delivered is retracted (a failing read only appends the
chunks its partial round already emitted). -/
theorem C8_transport_error_frame (env : Env) (inputs : Nat → RoundInput)
    (fuel k : Nat) (st : ExchangeState) (status : Nat) (body : String)
    (lines : List LineData) (msg : String) :
    (inputs k = RoundInput.httpError status body →
      (roundLoop env inputs (fuel + 1) k st).1 =
        Outcome.error ("API error (" ++ toString status ++ "): " ++ body) ∧
      (roundLoop env inputs (fuel + 1) k st).2.messages = st.messages ∧
      (roundLoop env inputs (fuel + 1) k st).2.chunksAll = st.chunksAll) ∧
    (inputs k = RoundInput.noBody →
      (roundLoop env inputs (fuel + 1) k st).1 = Outcome.error "No response body" ∧
      (roundLoop env inputs (fuel + 1) k st).2.messages = st.messages ∧
      (roundLoop env inputs (fuel + 1) k st).2.chunksAll = st.chunksAll) ∧
    (inputs k = RoundInput.readError lines msg →
      (roundLoop env inputs (fuel + 1) k st).1 = Outcome.error msg ∧
      (roundLoop env inputs (fuel + 1) k st).2.messages = st.messages ∧
      (roundLoop env inputs (fuel + 1) k st).2.chunksAll =
        st.chunksAll ++ (processRound lines).chunks) := by
  refine ⟨fun h => ?_, fun h => ?_, fun h => ?_⟩ <;>
    refine ⟨?_, ?_, ?_⟩ <;> simp [roundLoop, h]

/-- Witness for C8_transport_error_frame: a status-500 answer on the
first round fails the exchange with the status and body in the message
and leaves the (empty) prior transcript untouched. -/
theorem C8_transport_error_frame_witness :
    (roundLoop envPlain httpErrInputs 5 0 emptyExchangeState).1 =
      Outcome.error "API error (500): boom" ∧
    (roundLoop envPlain httpErrInputs 5 0 emptyExchangeState).2.messages = [] := by
  have h := (C8_transport_error_frame envPlain httpErrInputs 4 0 emptyExchangeState
    500 "boom" [] "").1 rfl
  exact ⟨h.1.trans (by decide), h.2.1⟩

/-- C10: `generateCoachResponse` resolves with the concatenation, in
delivery order, of all chunks passed to `onChunk` across all rounds — its
`onComplete` ignores its argument — so text streamed in earlier
tool-calling rounds, and in an exchange ended by budget exhaustion, is
included in the returned string even though `onComplete` received the
empty string, as the concrete five-round exchange shows. -/
theorem C10_generate_returns_chunks :
    (∀ (env : Env) (history : List (ChatRole × String)) (inputs : Nat → RoundInput)
        (s : String),
        (streamCoachResponse { env with hasOnToolCall := false } history inputs).1 =
          Outcome.complete s →
        generateCoachResponse env history inputs =
          Except.ok (concatList
            (streamCoachResponse { env with hasOnToolCall := false }
              history inputs).2.chunksAll)) ∧
    ((streamCoachResponse envPlain [] toolLoopInputs).1 = Outcome.complete "" ∧
     generateCoachResponse envPlain [] toolLoopInputs = Except.ok "HiHiHiHiHi" ∧
     ("HiHiHiHiHi" : String) ≠ "") := by
  constructor
  · intro env history inputs s h
    unfold generateCoachResponse
    cases hrun : streamCoachResponse { env with hasOnToolCall := false } history inputs with
    | mk out st =>
      rw [hrun] at h
      simp only at h
      cases out with
      | complete t => simp [hrun]
      | error e => exact absurd h (by simp)
  · exact ⟨rfl, rfl, by decide⟩

/-- Witness for C10_generate_returns_chunks: applying the universal part
to the concrete five-round exchange. -/
theorem C10_generate_returns_chunks_witness :
    generateCoachResponse envPlain [] toolLoopInputs =
      Except.ok (concatList
        (streamCoachResponse { envPlain with hasOnToolCall := false }
          [] toolLoopInputs).2.chunksAll) :=
  C10_generate_returns_chunks.1 envPlain [] toolLoopInputs "" rfl

end Tacticus
